import Mathlib

/-!
Shallow embedding of the multi-queue scheduling, failover, and buffer-management
core of the virtio-nic driver (src/kernel/virtio_nic_queue.c,
virtio_nic_failover.c, virtio_nic_dma.c, virtio_nic_irq.c, virtio_nic.c).

Machine integers that can only grow (u64 counters) are modelled as `Nat`;
the `atomic_t` in-flight counter, which the code decrements, is modelled as
`Int` so that non-negativity is a theorem and not an artifact of the model.
Kernel allocations that can fail (`kzalloc`) are modelled by an explicit
`Bool` success input.  The virtqueue ring is modelled as a bounded FIFO list
of `(data, len)` buffers: `virtqueue_add_sgs` fails exactly when the ring is
full, `virtqueue_get_buf` returns the oldest completed buffer if any.
Code paths that self-deadlock in the C (taking a spinlock already held)
return `none`.
-/

namespace VirtioNic

/-- Per-flow record, `struct virtio_nic_flow` (virtio_nic.h:22-29). -/
structure virtio_nic_flow where
  flow_id : Nat
  queue_id : Nat
  bytes : Nat
  packets : Nat
  last_seen : Nat
deriving DecidableEq

/-- Per-queue state, `struct virtio_nic_queue` (virtio_nic.h:32-54).
`ring` and `ringCapacity` model the virtqueue `vq`: the in-flight buffers in
submission order and the descriptor capacity. -/
structure virtio_nic_queue where
  ringCapacity : Nat
  ring : List (Nat × Nat)
  flow_tag : Nat
  pending_packets : Int
  flow_list : List virtio_nic_flow
  rx_bytes : Nat
  tx_bytes : Nat
  rx_packets : Nat
  tx_packets : Nat
  rx_errors : Nat
  tx_errors : Nat
  rx_dropped : Nat
  tx_dropped : Nat
deriving DecidableEq

/-- Queue initialisation performed by the loop body of `virtio_nic_setup_queues`
(virtio_nic_queue.c:49-83): zeroed statistics, empty flow list, zero in-flight
count, `flow_tag` set to the queue index. -/
def initQueue (cap tag : Nat) : virtio_nic_queue :=
  { ringCapacity := cap
    ring := []
    flow_tag := tag
    pending_packets := 0
    flow_list := []
    rx_bytes := 0
    tx_bytes := 0
    rx_packets := 0
    tx_packets := 0
    rx_errors := 0
    tx_errors := 0
    rx_dropped := 0
    tx_dropped := 0 }

/-- The find-or-create walk of `virtio_nic_update_flow_stats`
(virtio_nic_queue.c:250-268) on the flow list: the first entry whose
`flow_id` matches is bumped in place; otherwise a new entry is appended at
the tail, provided the `kzalloc` modelled by `allocOk` succeeds (on
allocation failure the list is silently left unchanged). -/
def updateFlowList (fid bytes now qtag : Nat) (allocOk : Bool) :
    List virtio_nic_flow → List virtio_nic_flow
  | [] =>
    if allocOk then
      [{ flow_id := fid, queue_id := qtag, bytes := bytes, packets := 1, last_seen := now }]
    else []
  | f :: rest =>
    if f.flow_id == fid then
      { f with bytes := f.bytes + bytes, packets := f.packets + 1, last_seen := now } :: rest
    else
      f :: updateFlowList fid bytes now qtag allocOk rest

/-- `virtio_nic_update_flow_stats` (virtio_nic_queue.c:242-273). -/
def virtio_nic_update_flow_stats (q : virtio_nic_queue) (flow_id bytes now : Nat)
    (allocOk : Bool) : virtio_nic_queue :=
  { q with flow_list := updateFlowList flow_id bytes now q.flow_tag allocOk q.flow_list }

/-- `virtio_nic_enqueue` (virtio_nic_queue.c:120-148): the flow id is
`skb->hash % 0xFFFF`; the ring submission fails when no descriptor is free;
on success the in-flight counter is incremented and the flow stats updated.
Returns the new queue and whether the submission succeeded. -/
def virtio_nic_enqueue (q : virtio_nic_queue) (hash len now data : Nat)
    (allocOk : Bool) : virtio_nic_queue × Bool :=
  let flow_id := hash % 0xFFFF
  if q.ring.length < q.ringCapacity then
    let q1 := { q with
                  ring := q.ring ++ [(data, len)]
                  pending_packets := q.pending_packets + 1 }
    (virtio_nic_update_flow_stats q1 flow_id len now allocOk, true)
  else
    (q, false)

/-- `virtio_nic_dequeue` (virtio_nic_queue.c:151-169): retrieves the oldest
completed buffer if any, decrementing the in-flight counter only then. -/
def virtio_nic_dequeue (q : virtio_nic_queue) : virtio_nic_queue × Option (Nat × Nat) :=
  match q.ring with
  | [] => (q, none)
  | b :: rest =>
    ({ q with ring := rest, pending_packets := q.pending_packets - 1 }, some b)

/-- Loop body of `virtio_nic_poll` (virtio_nic.c:232-253): repeatedly dequeue
while `work_done < budget` and buffers remain; `work_done` advances only for
buffers with `len > 0`.  Returns the remaining ring, the in-flight counter
and `work_done`. -/
def pollAux (budget : Nat) :
    List (Nat × Nat) → Int → Nat → List (Nat × Nat) × Int × Nat
  | [], pending, work_done => ([], pending, work_done)
  | b :: rest, pending, work_done =>
    if work_done < budget then
      pollAux budget rest (pending - 1) (if 0 < b.2 then work_done + 1 else work_done)
    else
      (b :: rest, pending, work_done)

/-- `virtio_nic_poll` (virtio_nic.c:224-261) restricted to its ring effect:
drains up to `budget` completions via repeated dequeue. -/
def virtio_nic_poll (q : virtio_nic_queue) (budget : Nat) : virtio_nic_queue × Nat :=
  let res := pollAux budget q.ring q.pending_packets 0
  ({ q with ring := res.1, pending_packets := res.2.1 }, res.2.2)

/-- One operation of the queue API, for stating trace invariants. -/
inductive QueueOp where
  | enq : Nat → Nat → Nat → Nat → Bool → QueueOp
  | deq : QueueOp
  | poll : Nat → QueueOp

/-- Apply one queue operation. -/
def applyQueueOp (q : virtio_nic_queue) : QueueOp → virtio_nic_queue
  | QueueOp.enq hash len now data allocOk => (virtio_nic_enqueue q hash len now data allocOk).1
  | QueueOp.deq => (virtio_nic_dequeue q).1
  | QueueOp.poll budget => (virtio_nic_poll q budget).1

/-- Run a sequence of queue operations. -/
def runQueueOps (q : virtio_nic_queue) (ops : List QueueOp) : virtio_nic_queue :=
  ops.foldl applyQueueOp q

/-- A queue's flow table contains an entry for key `k`. -/
def queueHasKey (q : virtio_nic_queue) (k : Nat) : Bool :=
  q.flow_list.any (fun f => f.flow_id == k)

/-- Failover record, `struct virtio_nic_failed_queue` (virtio_nic_failover.c:41-47). -/
structure virtio_nic_failed_queue where
  queue_id : Nat
  failure_count : Nat
  last_failure : Nat
  recovery_time : Nat
deriving DecidableEq

/-- Device state, `struct virtio_nic_priv` (virtio_nic.h:68-84) together with
the failover state `struct virtio_nic_failover_state`
(virtio_nic_failover.c:29-38) that `priv->failover_state` points to, and the
module parameters of virtio_nic_failover.c.  `queues` models the
`kcalloc`-ed queue array; `fo_active_queues`/`failed_queues` are the atomic
counters of the failover state (distinct from `priv->active_queues`, which
the transmit path uses for routing). -/
structure virtio_nic_priv where
  queues : Nat → virtio_nic_queue
  num_queues : Nat
  active_queues : Nat
  total_rx_bytes : Nat
  total_tx_bytes : Nat
  total_rx_packets : Nat
  total_tx_packets : Nat
  failover_count : Nat
  max_failover_count : Nat
  queue_failure_threshold : Nat
  failed_list : List virtio_nic_failed_queue
  failed_queues : Int
  fo_active_queues : Int

/-- `virtio_nic_setup_queues` (virtio_nic_queue.c:25-87): allocates and
initialises `n` queues (each with ring capacity `cap`) and sets
`active_queues = num_queues`. -/
def virtio_nic_setup_queues (n cap : Nat) : virtio_nic_priv :=
  { queues := fun i => initQueue cap i
    num_queues := n
    active_queues := n
    total_rx_bytes := 0
    total_tx_bytes := 0
    total_rx_packets := 0
    total_tx_packets := 0
    failover_count := 0
    max_failover_count := 3
    queue_failure_threshold := 1000
    failed_list := []
    failed_queues := 0
    fo_active_queues := 0 }

/-- `virtio_nic_init_failover` (virtio_nic_failover.c:50-82): zeroes the
failover attempt counter, sets the failover-state active count to
`num_queues`, the failed count to zero, and the failed-queue list to empty. -/
def virtio_nic_init_failover (p : virtio_nic_priv) : virtio_nic_priv :=
  { p with
      failover_count := 0
      failed_queues := 0
      fo_active_queues := Int.ofNat p.num_queues
      failed_list := [] }

/-- Freshly probed device with `n` queues of ring capacity `cap`
(virtio_nic_probe, virtio_nic.c:42-119, restricted to queue and failover
setup). -/
def initPriv (n cap : Nat) : virtio_nic_priv :=
  virtio_nic_init_failover (virtio_nic_setup_queues n cap)

/-- `virtio_nic_start_xmit` (virtio_nic.c:173-221): routes the packet to
queue `(hash ? hash % num_queues : 0) % active_queues`, enqueues it, and on
success bumps the per-queue and aggregate tx counters.  On enqueue failure
the packet is dropped (`NETDEV_TX_BUSY`) and no state changes. -/
def virtio_nic_start_xmit (p : virtio_nic_priv) (hash len now data : Nat)
    (allocOk : Bool) : virtio_nic_priv × Bool :=
  let flow_id := if hash ≠ 0 then hash % p.num_queues else 0
  let qidx := flow_id % p.active_queues
  let res := virtio_nic_enqueue (p.queues qidx) hash len now data allocOk
  if res.2 then
    ({ p with
        queues := fun j =>
          if j = qidx then
            { res.1 with tx_packets := res.1.tx_packets + 1, tx_bytes := res.1.tx_bytes + len }
          else p.queues j
        total_tx_packets := p.total_tx_packets + 1
        total_tx_bytes := p.total_tx_bytes + len }, true)
  else
    (p, false)

/-- Run a list of `(hash, len)` transmissions through `virtio_nic_start_xmit`
(with `kzalloc` succeeding and opaque timestamp/data inputs). -/
def runXmits (p : virtio_nic_priv) (pkts : List (Nat × Nat)) : virtio_nic_priv :=
  pkts.foldl (fun acc hl => (virtio_nic_start_xmit acc hl.1 hl.2 0 0 true).1) p

/-- Total error count of queue `i`, as read by queue selection
(virtio_nic_failover.c:233). -/
def errTotal (p : virtio_nic_priv) (i : Nat) : Nat :=
  (p.queues i).rx_errors + (p.queues i).tx_errors

/-- Loop of `virtio_nic_find_available_queue` (virtio_nic_failover.c:228-239):
tracks the index with the strictly smallest total error count seen so far,
starting from `best = -1` and `min_errors = U64_MAX`. -/
def findAvailAux (p : virtio_nic_priv) : List Nat → Int → Nat → Int
  | [], best, _ => best
  | i :: rest, best, min_errors =>
    if errTotal p i < min_errors then
      findAvailAux p rest (Int.ofNat i) (errTotal p i)
    else
      findAvailAux p rest best min_errors

/-- `virtio_nic_find_available_queue` (virtio_nic_failover.c:219-243). -/
def virtio_nic_find_available_queue (p : virtio_nic_priv) : Int :=
  findAvailAux p (List.range p.num_queues) (-1) (2 ^ 64 - 1)

/-- `virtio_nic_reassign_queue_flows` (virtio_nic_failover.c:246-271): moves
every flow of `old_q`'s table to the tail of `new_q`'s table in order,
setting each entry's `queue_id` to `new_q`.  When `old_q = new_q` the C code
acquires `new_q->flow_lock` while already holding the same (non-reentrant)
spinlock for every entry moved, so it self-deadlocks unless the flow list is
empty: that divergence is modelled as `none`. -/
def virtio_nic_reassign_queue_flows (p : virtio_nic_priv) (old_q new_q : Nat) :
    Option virtio_nic_priv :=
  if old_q = new_q then
    if (p.queues old_q).flow_list = [] then some p else none
  else
    some { p with
      queues := fun j =>
        if j = old_q then { p.queues old_q with flow_list := [] }
        else if j = new_q then
          { p.queues new_q with
              flow_list := (p.queues new_q).flow_list ++
                (p.queues old_q).flow_list.map (fun f => { f with queue_id := new_q }) }
        else p.queues j }

/-- `virtio_nic_remap_queue` (virtio_nic_failover.c:186-216): resolves the
target (`virtio_nic_find_available_queue` when `new_queue = -1`), reassigns
the failing queue's flows to it, then resets the failing queue's error
counters.  Error returns (`-EINVAL`, `-ENOMEM`) leave the state unchanged. -/
def virtio_nic_remap_queue (p : virtio_nic_priv) (old_queue : Nat) (new_queue : Int) :
    Option virtio_nic_priv :=
  if p.num_queues ≤ old_queue then some p
  else
    let target : Int := if new_queue = -1 then virtio_nic_find_available_queue p else new_queue
    if target < 0 then some p
    else
      (virtio_nic_reassign_queue_flows p old_queue target.toNat).map fun p2 =>
        { p2 with
            queues := fun j =>
              if j = old_queue then
                { p2.queues old_queue with rx_errors := 0, tx_errors := 0 }
              else p2.queues j }

/-- First-match bump of the failed-queue list walk in `virtio_nic_queue_failed`
(virtio_nic_failover.c:155-161): `some` with the record bumped in place when
a record for `qid` exists, `none` otherwise. -/
def bumpFailedRecord (qid now : Nat) :
    List virtio_nic_failed_queue → Option (List virtio_nic_failed_queue)
  | [] => none
  | r :: rest =>
    if r.queue_id == qid then
      some ({ r with failure_count := r.failure_count + 1, last_failure := now } :: rest)
    else
      (bumpFailedRecord qid now rest).map (r :: ·)

/-- `virtio_nic_queue_failed` (virtio_nic_failover.c:143-183): finds or
creates (when the `kzalloc` modelled by `allocOk` succeeds) the failover
record for the queue, then — only while the global failover attempt count is
below the maximum — increments that count and remaps the queue to the target
chosen by `virtio_nic_find_available_queue`. -/
def virtio_nic_queue_failed (p : virtio_nic_priv) (queue_id now : Nat) (allocOk : Bool) :
    Option virtio_nic_priv :=
  if p.num_queues ≤ queue_id then some p
  else
    let p1 :=
      match bumpFailedRecord queue_id now p.failed_list with
      | some recs => { p with failed_list := recs }
      | none =>
        if allocOk then
          { p with
              failed_list := p.failed_list ++
                [{ queue_id := queue_id, failure_count := 1, last_failure := now,
                   recovery_time := 0 }]
              failed_queues := p.failed_queues + 1
              fo_active_queues := p.fo_active_queues - 1 }
        else p
    if p1.failover_count < p1.max_failover_count then
      virtio_nic_remap_queue { p1 with failover_count := p1.failover_count + 1 } queue_id (-1)
    else some p1

/-- `virtio_nic_health_check_timer` (virtio_nic_failover.c:115-140): reports
every queue whose `rx_errors` or `tx_errors` exceed the failure threshold to
`virtio_nic_queue_failed`, in index order. -/
def virtio_nic_health_check_timer (p : virtio_nic_priv) (now : Nat) (allocOk : Bool) :
    Option virtio_nic_priv :=
  (List.range p.num_queues).foldlM
    (fun acc i =>
      if acc.queue_failure_threshold < (acc.queues i).rx_errors ∨
         acc.queue_failure_threshold < (acc.queues i).tx_errors then
        virtio_nic_queue_failed acc i now allocOk
      else pure acc)
    p

/-- Run a sequence of health-check ticks, each with its own timestamp and
`kzalloc` outcome. -/
def runHealthChecks (p : virtio_nic_priv) (checks : List (Nat × Bool)) :
    Option virtio_nic_priv :=
  checks.foldlM (fun acc c => virtio_nic_health_check_timer acc c.1 c.2) p

/-- `virtio_nic_failover_work` (virtio_nic_queue.c:228-239): work item
initialised at queue setup but never queued anywhere in the repository; it
would remap a queue whose errors exceed the hard-coded threshold 1000 to
queue `(flow_tag + 1) % num_queues` without consulting the failover attempt
count. -/
def virtio_nic_failover_work (p : virtio_nic_priv) (qidx : Nat) : Option virtio_nic_priv :=
  if 1000 < (p.queues qidx).rx_errors ∨ 1000 < (p.queues qidx).tx_errors then
    virtio_nic_remap_queue p qidx (Int.ofNat ((qidx + 1) % p.num_queues))
  else some p

/-- Recovery condition of `virtio_nic_queue_recovery_work`
(virtio_nic_failover.c:353): the last failure lies more than the 5000 ms
recovery window in the past. -/
def recordExpired (now : Nat) (r : virtio_nic_failed_queue) : Bool :=
  decide (5000 < now - r.last_failure)

/-- Zero a queue's error counters (virtio_nic_failover.c:357-358). -/
def resetQueueErrors (q : virtio_nic_queue) : virtio_nic_queue :=
  { q with rx_errors := 0, tx_errors := 0 }

/-- Loop of `virtio_nic_queue_recovery_work` (virtio_nic_failover.c:351-369):
walks the failed-queue list; every expired record is dropped, its queue's
error counters are reset, the failed count is decremented and the active
count incremented; other records are kept untouched. -/
def recoverySweep (now : Nat) :
    List virtio_nic_failed_queue → (Nat → virtio_nic_queue) → Int → Int →
    List virtio_nic_failed_queue × (Nat → virtio_nic_queue) × Int × Int
  | [], qs, fq, aq => ([], qs, fq, aq)
  | r :: rest, qs, fq, aq =>
    if recordExpired now r then
      recoverySweep now rest
        (fun j => if j = r.queue_id then resetQueueErrors (qs j) else qs j)
        (fq - 1) (aq + 1)
    else
      let res := recoverySweep now rest qs fq aq
      (r :: res.1, res.2.1, res.2.2.1, res.2.2.2)

/-- `virtio_nic_queue_recovery_work` (virtio_nic_failover.c:338-373). -/
def virtio_nic_queue_recovery_work (p : virtio_nic_priv) (now : Nat) : virtio_nic_priv :=
  let res := recoverySweep now p.failed_list p.queues p.failed_queues p.fo_active_queues
  { p with
      failed_list := res.1
      queues := res.2.1
      failed_queues := res.2.2.1
      fo_active_queues := res.2.2.2 }

/-- A flow key is present in exactly one queue's flow table. -/
def inExactlyOneTable (p : virtio_nic_priv) (k : Nat) : Prop :=
  ∃ i, i < p.num_queues ∧ queueHasKey (p.queues i) k = true ∧
    ∀ j, j < p.num_queues → queueHasKey (p.queues j) k = true → j = i

/-- Coalescing bounds, the `min_coalesce_usecs`/`max_coalesce_usecs` module
parameters of virtio_nic_irq.c (defaults 8 and 128). -/
structure CoalesceConfig where
  min_coalesce_usecs : Nat
  max_coalesce_usecs : Nat
deriving DecidableEq

/-- Clamp performed by `virtio_nic_update_coalesce` (virtio_nic_irq.c:214):
`usecs = max(min_coalesce_usecs, min(usecs, max_coalesce_usecs))`, the value
then stored in `coalesce_usecs`. -/
def virtio_nic_update_coalesce (cfg : CoalesceConfig) (usecs : Nat) : Nat :=
  max cfg.min_coalesce_usecs (min usecs cfg.max_coalesce_usecs)

/-- The `new_coalesce` computation of `virtio_nic_adaptive_coalescing`
(virtio_nic_irq.c:242-248): above total load 1000 the interval is halved
(bounded below by the minimum), below 100 it is doubled (bounded above by
the maximum), otherwise unchanged. -/
def adaptiveTarget (cfg : CoalesceConfig) (coalesce total_load : Nat) : Nat :=
  if 1000 < total_load then max cfg.min_coalesce_usecs (coalesce / 2)
  else if total_load < 100 then min cfg.max_coalesce_usecs (coalesce * 2)
  else coalesce

/-- `virtio_nic_adaptive_coalescing` (virtio_nic_irq.c:228-254): sums the
queues' pending-packet counts, computes the adjusted interval, and applies a
changed value through `virtio_nic_update_coalesce`.  Returns the new
`coalesce_usecs`. -/
def virtio_nic_adaptive_coalescing (cfg : CoalesceConfig) (coalesce : Nat)
    (pending : List Nat) : Nat :=
  if adaptiveTarget cfg coalesce (pending.foldl (· + ·) 0) ≠ coalesce then
    virtio_nic_update_coalesce cfg (adaptiveTarget cfg coalesce (pending.foldl (· + ·) 0))
  else coalesce

/-- Feed a sequence of load observations (each a list of per-queue pending
counts) through the adaptive coalescing adjustment. -/
def runAdaptive (cfg : CoalesceConfig) (coalesce : Nat) (seq : List (List Nat)) : Nat :=
  seq.foldl (virtio_nic_adaptive_coalescing cfg) coalesce

/-- PAGE_SIZE of the modelled kernel. -/
def PAGE_SIZE : Nat := 4096

/-- `DIV_ROUND_UP` (virtio_nic_dma.c:40). -/
def DIV_ROUND_UP (n d : Nat) : Nat := (n + d - 1) / d

/-- Allocation environment for the DMA path: how many locality-local pages
`alloc_pages_node` can still hand out, and whether `dma_map_sg` succeeds. -/
structure AllocEnv where
  availPages : Nat
  mapOk : Bool
deriving DecidableEq

/-- Contents of `struct virtio_nic_dma_buf` (virtio_nic.h:57-65) visible to
the pool: the page-array and scatterlist pointers are reduced to the counts
the pool logic reads. -/
structure virtio_nic_dma_buf where
  nr_pages : Nat
  nents : Nat
  size : Nat
  write : Bool
deriving DecidableEq

/-- All-zero buffer slot, as left by `kcalloc`/`memset`
(virtio_nic_dma.c:35, 121). -/
def emptyDmaBuf : virtio_nic_dma_buf :=
  { nr_pages := 0, nents := 0, size := 0, write := false }

/-- Page-allocation loop of `virtio_nic_dma_alloc_buffer`
(virtio_nic_dma.c:58-64): allocates pages one by one until `nr_pages` are
pinned or the allocator runs dry.  Returns how many pages were obtained and
whether all of them were. -/
def allocPagesLoop (avail need : Nat) : Nat × Bool :=
  if need ≤ avail then (need, true) else (avail, false)

/-- `virtio_nic_dma_alloc_buffer` (virtio_nic_dma.c:23-93): zeroes the
buffer, records size/write/nr_pages, pins the pages, builds the scatterlist
(`nents := nr_pages`), and maps it for DMA.  On a partial page-allocation
failure or a mapping failure, all pinned pages (and the arrays) are freed
again — but the buffer struct keeps the size/write/nr_pages (and, after the
mapping attempt, nents) already written into it.  Returns the environment
after the call, the buffer contents after the call, and success. -/
def virtio_nic_dma_alloc_buffer (env : AllocEnv) (size : Nat) (write : Bool) :
    AllocEnv × virtio_nic_dma_buf × Bool :=
  let nr_pages := DIV_ROUND_UP size PAGE_SIZE
  let buf0 : virtio_nic_dma_buf :=
    { emptyDmaBuf with size := size, write := write, nr_pages := nr_pages }
  let alloc := allocPagesLoop env.availPages nr_pages
  let envAfterAlloc : AllocEnv := { env with availPages := env.availPages - alloc.1 }
  if alloc.2 then
    let buf1 := { buf0 with nents := nr_pages }
    if env.mapOk then
      (envAfterAlloc, buf1, true)
    else
      ({ envAfterAlloc with availPages := envAfterAlloc.availPages + alloc.1 }, buf1, false)
  else
    ({ envAfterAlloc with availPages := envAfterAlloc.availPages + alloc.1 }, buf0, false)

/-- `virtio_nic_dma_free_buffer` (virtio_nic_dma.c:96-123): unmaps, frees the
pages back to the environment, and zeroes the slot. -/
def virtio_nic_dma_free_buffer (env : AllocEnv) (buf : virtio_nic_dma_buf) :
    AllocEnv × virtio_nic_dma_buf :=
  ({ env with availPages := env.availPages + buf.nr_pages }, emptyDmaBuf)

/-- `struct dma_buffer_pool` (virtio_nic_dma.c:12-18): the buffer slots and
the used count (the `size`/`numa_node` fields are the list length and the
pool's identity). -/
structure dma_buffer_pool where
  buffers : List virtio_nic_dma_buf
  used : Nat
deriving DecidableEq

/-- Free-slot scan of `virtio_nic_dma_get_buffer` (virtio_nic_dma.c:233-238):
the first slot whose `size` field is zero. -/
def findFreeSlot : List virtio_nic_dma_buf → Nat → Option Nat
  | [], _ => none
  | b :: rest, i => if b.size == 0 then some i else findFreeSlot rest (i + 1)

/-- Number of slots the pool scan would consider free. -/
def poolFreeSlots (pool : dma_buffer_pool) : Nat :=
  pool.buffers.countP (fun b => b.size == 0)

/-- `virtio_nic_dma_get_buffer` (virtio_nic_dma.c:217-252): finds a free
slot, runs `virtio_nic_dma_alloc_buffer` on it, and increments `used` only
on success; on failure NULL is returned but the slot keeps whatever the
failed allocation wrote into it. -/
def virtio_nic_dma_get_buffer (pool : dma_buffer_pool) (env : AllocEnv)
    (size : Nat) (write : Bool) : dma_buffer_pool × AllocEnv × Option Nat :=
  match findFreeSlot pool.buffers 0 with
  | none => (pool, env, none)
  | some i =>
    let res := virtio_nic_dma_alloc_buffer env size write
    if res.2.2 then
      ({ buffers := pool.buffers.set i res.2.1, used := pool.used + 1 }, res.1, some i)
    else
      ({ buffers := pool.buffers.set i res.2.1, used := pool.used }, res.1, none)

/-- Lock acquire/release events, for auditing the spinlock discipline of the
flow-migration code. -/
inductive LockEvent where
  | acq : Nat → LockEvent
  | rel : Nat → LockEvent
deriving DecidableEq

/-- The pairs `(h, l)` such that lock `l` is acquired at some point of the
trace while lock `h` is held. -/
def nestedPairs : List LockEvent → List Nat → List (Nat × Nat)
  | [], _ => []
  | LockEvent.acq l :: rest, held => held.map (fun h => (h, l)) ++ nestedPairs rest (l :: held)
  | LockEvent.rel l :: rest, held => nestedPairs rest (held.erase l)

/-- Lock trace of `virtio_nic_reassign_queue_flows`
(virtio_nic_failover.c:256-269) migrating `nflows` flows from `old_q` to
`new_q`: the source table's lock is held for the whole walk, and the
destination table's lock is taken and released inside it once per flow. -/
def reassignLockTrace (old_q new_q nflows : Nat) : List LockEvent :=
  LockEvent.acq old_q ::
    ((List.replicate nflows [LockEvent.acq new_q, LockEvent.rel new_q]).flatten ++
      [LockEvent.rel old_q])

/-- Nested lock acquisitions of a trace, starting with no lock held. -/
def lockPairs (tr : List LockEvent) : List (Nat × Nat) :=
  nestedPairs tr []

/-- Concrete device used to refute claim C1: two queues, ring capacity 4,
after transmitting a packet with hash 2 (flow key 2, routed to queue 0). -/
def c1devA : virtio_nic_priv :=
  (virtio_nic_start_xmit (initPriv 2 4) 2 10 0 0 true).1

/-- The C1 device after migrating all of queue 0's flows to queue 1. -/
def c1devB : virtio_nic_priv :=
  (virtio_nic_reassign_queue_flows c1devA 0 1).getD c1devA

/-- The C1 device after a second transmit of hash 2, which the transmit path
still routes to queue 0. -/
def c1devC : virtio_nic_priv :=
  (virtio_nic_start_xmit c1devB 2 10 0 0 true).1

/-- Concrete device used to refute claim C2: queue 0 exceeds the failure
threshold (rx_errors 1001 > 1000) yet still has the globally lowest total
error count (1001 against queue 1's 1200), and owns one flow. -/
def c2dev : virtio_nic_priv :=
  { initPriv 2 4 with
      queues := fun i =>
        if i = 0 then
          { initQueue 4 0 with
              rx_errors := 1001
              flow_list := [{ flow_id := 7, queue_id := 0, bytes := 5, packets := 1,
                              last_seen := 0 }] }
        else { initQueue 4 1 with rx_errors := 600, tx_errors := 600 } }

/-- Concrete device used to witness the amended claim C2: queue 0 is failing
(rx_errors 1001) and owns one flow, queue 1 is healthy with zero errors. -/
def c2devW : virtio_nic_priv :=
  { initPriv 2 4 with
      queues := fun i =>
        if i = 0 then
          { initQueue 4 0 with
              rx_errors := 1001
              flow_list := [{ flow_id := 7, queue_id := 0, bytes := 5, packets := 1,
                              last_seen := 0 }] }
        else initQueue 4 1 }

/-- Concrete pool used to refute claim C3: two free slots, an environment
with only 2 pages available and working DMA mapping. -/
def c3pool : dma_buffer_pool := { buffers := [emptyDmaBuf, emptyDmaBuf], used := 0 }

/-- Allocation environment for the C3 counterexample. -/
def c3env : AllocEnv := { availPages := 2, mapOk := true }

/-- Concrete device used to witness claim C7: the failover attempt count has
reached the maximum (3) and every queue is far beyond the error threshold. -/
def c7dev : virtio_nic_priv :=
  { initPriv 2 4 with
      failover_count := 3
      queues := fun i => { initQueue 4 i with rx_errors := 5000 } }

/-- Ring/counter invariant tying the in-flight counter to the ring contents. -/
def QInv (cap : Nat) (q : virtio_nic_queue) : Prop :=
  q.ringCapacity = cap ∧ q.pending_packets = (q.ring.length : Int) ∧ q.ring.length ≤ cap

/-- Expected flow-table membership for Scenario A: key `k` is in queue `i`'s
table iff some transmitted packet hashed to queue `i` (hash mod 4) with flow
key `k` (hash mod 0xFFFF). -/
def c8Spec (pkts : List (Nat × Nat)) (i k : Nat) : Bool :=
  pkts.any (fun hl => hl.1 % 4 == i && hl.1 % 0xFFFF == k)

/-- Invariant carried through the Scenario A transmission run: 4 queues with
ring capacity 1000, aggregate tx counter equal to the number of packets sent,
rings no longer than that number, and flow-table membership given by
`c8Spec`. -/
def C8Inv (done : List (Nat × Nat)) (p : virtio_nic_priv) : Prop :=
  p.num_queues = 4 ∧ p.active_queues = 4 ∧
  p.total_tx_packets = done.length ∧
  (∀ i, (p.queues i).ringCapacity = 1000) ∧
  (∀ i, (p.queues i).ring.length ≤ done.length) ∧
  (∀ i k, queueHasKey (p.queues i) k = c8Spec done i k)

/-- The poll loop preserves the counter/ring correspondence and never grows
the ring. -/
theorem pollAux_inv (budget : Nat) (ring : List (Nat × Nat)) :
    ∀ (pending : Int) (wd : Nat), pending = (ring.length : Int) →
      (pollAux budget ring pending wd).2.1 =
        ((pollAux budget ring pending wd).1.length : Int) ∧
      (pollAux budget ring pending wd).1.length ≤ ring.length := by
  induction ring with
  | nil =>
    intro pending wd h
    exact ⟨by simpa [pollAux] using h, by simp [pollAux]⟩
  | cons b rest ih =>
    intro pending wd h
    by_cases hb : wd < budget
    · simp only [pollAux, if_pos hb]
      have h1 : pending - 1 = (rest.length : Int) := by
        rw [h]; simp only [List.length_cons]; push_cast; omega
      have h2 := ih (pending - 1) (if 0 < b.2 then wd + 1 else wd) h1
      exact ⟨h2.1, Nat.le_succ_of_le h2.2⟩
    · simp only [pollAux, if_neg hb]
      exact ⟨h, Nat.le_refl _⟩

/-- Every queue operation preserves the ring/counter invariant. -/
theorem applyQueueOp_inv (cap : Nat) (q : virtio_nic_queue) (op : QueueOp)
    (h : QInv cap q) : QInv cap (applyQueueOp q op) := by
  obtain ⟨hcap, hpend, hlen⟩ := h
  cases op with
  | enq hash len now data allocOk =>
    simp only [applyQueueOp, virtio_nic_enqueue]
    by_cases hr : q.ring.length < q.ringCapacity
    · rw [if_pos hr]
      refine ⟨?_, ?_, ?_⟩
      · simpa [virtio_nic_update_flow_stats] using hcap
      · simp [virtio_nic_update_flow_stats, hpend]
      · simp only [virtio_nic_update_flow_stats, List.length_append, List.length_cons,
          List.length_nil]
        omega
    · rw [if_neg hr]
      exact ⟨hcap, hpend, hlen⟩
  | deq =>
    cases hr : q.ring with
    | nil =>
      simp only [applyQueueOp, virtio_nic_dequeue, hr]
      exact ⟨hcap, hpend, hlen⟩
    | cons b rest =>
      simp only [applyQueueOp, virtio_nic_dequeue, hr]
      rw [hr] at hpend hlen
      simp only [List.length_cons] at hpend hlen
      push_cast at hpend
      refine ⟨hcap, ?_, ?_⟩
      · show q.pending_packets - 1 = ((rest.length : Nat) : Int)
        omega
      · show rest.length ≤ cap
        omega
  | poll budget =>
    have h2 := pollAux_inv budget q.ring q.pending_packets 0 hpend
    simp only [applyQueueOp, virtio_nic_poll]
    exact ⟨hcap, h2.1, Nat.le_trans h2.2 hlen⟩

/-- Runs of queue operations preserve the ring/counter invariant. -/
theorem runQueueOps_inv (cap : Nat) (ops : List QueueOp) :
    ∀ q, QInv cap q → QInv cap (runQueueOps q ops) := by
  induction ops with
  | nil => intro q h; exact h
  | cons op rest ih =>
    intro q h
    exact ih (applyQueueOp q op) (applyQueueOp_inv cap q op h)

/-- Claim C4: starting from a freshly initialized queue, any sequence of
enqueue, dequeue, and poll operations leaves the in-flight counter
`pending_packets` non-negative and at most the ring's descriptor capacity;
enqueue increments it only when the ring accepts the submission, and an
empty dequeue leaves it unchanged. -/
theorem claim_c4_inflight_bounds (cap tag : Nat) (ops : List QueueOp) :
    0 ≤ (runQueueOps (initQueue cap tag) ops).pending_packets ∧
    (runQueueOps (initQueue cap tag) ops).pending_packets ≤ (cap : Int) := by
  have hinit : QInv cap (initQueue cap tag) := by
    refine ⟨rfl, rfl, ?_⟩; simp [initQueue]
  obtain ⟨hcap, hpend, hlen⟩ := runQueueOps_inv cap ops (initQueue cap tag) hinit
  constructor
  · rw [hpend]; exact Int.ofNat_nonneg _
  · rw [hpend]; exact_mod_cast hlen

/-- When the `kzalloc` for a new flow entry fails and the key is not already
present, the flow-list walk leaves the list unchanged. -/
theorem updateFlowList_fresh_alloc_fail (fid bytes now qtag : Nat)
    (l : List virtio_nic_flow) (h : ∀ f ∈ l, f.flow_id ≠ fid) :
    updateFlowList fid bytes now qtag false l = l := by
  induction l with
  | nil => simp [updateFlowList]
  | cons f rest ih =>
    have hf : (f.flow_id == fid) = false := by
      simpa using h f (List.mem_cons_self f rest)
    simp only [updateFlowList, hf, Bool.false_eq_true, if_false, List.cons.injEq, true_and]
    exact ih fun g hg => h g (List.mem_cons_of_mem f hg)

/-- Claim C10: if the ring accepts the submission but the allocation of a new
flow entry for a first-seen key fails, the enqueue still reports success and
still increments the in-flight counter, while the flow table is left without
an entry for that key. -/
theorem claim_c10_enqueue_alloc_fail (q : virtio_nic_queue) (hash len now data : Nat)
    (hring : q.ring.length < q.ringCapacity)
    (hfresh : ∀ f ∈ q.flow_list, f.flow_id ≠ hash % 0xFFFF) :
    (virtio_nic_enqueue q hash len now data false).2 = true ∧
    (virtio_nic_enqueue q hash len now data false).1.pending_packets =
      q.pending_packets + 1 ∧
    (virtio_nic_enqueue q hash len now data false).1.flow_list = q.flow_list ∧
    queueHasKey (virtio_nic_enqueue q hash len now data false).1 (hash % 0xFFFF) = false := by
  have hlist : updateFlowList (hash % 0xFFFF) len now q.flow_tag false q.flow_list =
      q.flow_list := updateFlowList_fresh_alloc_fail _ _ _ _ _ hfresh
  refine ⟨?_, ?_, ?_, ?_⟩ <;>
    simp [virtio_nic_enqueue, if_pos hring, virtio_nic_update_flow_stats, hlist, queueHasKey]
  intro f hf
  simpa using hfresh f hf

/-- Witness for claim C10 at a fresh queue of capacity 4 and a packet of
hash 5. -/
theorem claim_c10_witness :
    (initQueue 4 0).ring.length < (initQueue 4 0).ringCapacity ∧
    (∀ f ∈ (initQueue 4 0).flow_list, f.flow_id ≠ 5 % 0xFFFF) ∧
    ((virtio_nic_enqueue (initQueue 4 0) 5 100 0 0 false).2 = true ∧
      (virtio_nic_enqueue (initQueue 4 0) 5 100 0 0 false).1.pending_packets =
        (initQueue 4 0).pending_packets + 1 ∧
      (virtio_nic_enqueue (initQueue 4 0) 5 100 0 0 false).1.flow_list =
        (initQueue 4 0).flow_list ∧
      queueHasKey (virtio_nic_enqueue (initQueue 4 0) 5 100 0 0 false).1 (5 % 0xFFFF) =
        false) :=
  ⟨by decide, by simp [initQueue], claim_c10_enqueue_alloc_fail (initQueue 4 0) 5 100 0 0
    (by decide) (by simp [initQueue])⟩

/-- The clamp of `virtio_nic_update_coalesce` lands in the configured bounds
whenever they are consistent. -/
theorem update_coalesce_bounds (cfg : CoalesceConfig)
    (h : cfg.min_coalesce_usecs ≤ cfg.max_coalesce_usecs) (x : Nat) :
    cfg.min_coalesce_usecs ≤ virtio_nic_update_coalesce cfg x ∧
    virtio_nic_update_coalesce cfg x ≤ cfg.max_coalesce_usecs := by
  unfold virtio_nic_update_coalesce
  exact ⟨Nat.le_max_left _ _, Nat.max_le.mpr ⟨h, Nat.min_le_right _ _⟩⟩

/-- One adaptive-coalescing step keeps the interval within bounds. -/
theorem adaptive_coalescing_bounds (cfg : CoalesceConfig)
    (h : cfg.min_coalesce_usecs ≤ cfg.max_coalesce_usecs) (c : Nat)
    (hc1 : cfg.min_coalesce_usecs ≤ c) (hc2 : c ≤ cfg.max_coalesce_usecs)
    (pending : List Nat) :
    cfg.min_coalesce_usecs ≤ virtio_nic_adaptive_coalescing cfg c pending ∧
    virtio_nic_adaptive_coalescing cfg c pending ≤ cfg.max_coalesce_usecs := by
  unfold virtio_nic_adaptive_coalescing
  split_ifs <;> first
    | exact ⟨hc1, hc2⟩
    | exact update_coalesce_bounds cfg h _

/-- Claim C6: for every sequence of aggregate load observations, the
adaptive coalescing interval stays within
`[min_coalesce_usecs, max_coalesce_usecs]`: halving under high load is
bounded below by the minimum, doubling under low load is bounded above by
the maximum, and the applied value is clamped to the same bounds. -/
theorem claim_c6_coalescing_bounds (cfg : CoalesceConfig) (c : Nat)
    (h : cfg.min_coalesce_usecs ≤ cfg.max_coalesce_usecs)
    (hc1 : cfg.min_coalesce_usecs ≤ c) (hc2 : c ≤ cfg.max_coalesce_usecs)
    (seq : List (List Nat)) :
    cfg.min_coalesce_usecs ≤ runAdaptive cfg c seq ∧
    runAdaptive cfg c seq ≤ cfg.max_coalesce_usecs := by
  unfold runAdaptive
  induction seq generalizing c with
  | nil => exact ⟨hc1, hc2⟩
  | cons loads rest ih =>
    have hstep := adaptive_coalescing_bounds cfg h c hc1 hc2 loads
    exact ih _ hstep.1 hstep.2

/-- Witness for claim C6 with the module-parameter defaults (min 8, max 128,
initial interval 64) over a high-, idle- and mid-load sequence. -/
theorem claim_c6_witness :
    (8 ≤ 128 ∧ 8 ≤ 64 ∧ 64 ≤ 128) ∧
    (8 ≤ runAdaptive ⟨8, 128⟩ 64 [[1200], [], [50, 40]] ∧
      runAdaptive ⟨8, 128⟩ 64 [[1200], [], [50, 40]] ≤ 128) :=
  ⟨by decide, claim_c6_coalescing_bounds ⟨8, 128⟩ 64 (by decide) (by decide) (by decide) _⟩

/-- Resetting error counters twice is the same as once. -/
theorem resetQueueErrors_idem (q : virtio_nic_queue) :
    resetQueueErrors (resetQueueErrors q) = resetQueueErrors q := rfl

/-- Full characterisation of one recovery sweep over a record list: the
expired records are dropped, the counters are moved by the number of expired
records, and a queue is error-reset exactly when some expired record names
it. -/
theorem recoverySweep_spec (now : Nat) :
    ∀ (recs : List virtio_nic_failed_queue) (qs : Nat → virtio_nic_queue) (fq aq : Int),
      (recoverySweep now recs qs fq aq).1 = recs.filter (fun r => !recordExpired now r) ∧
      (recoverySweep now recs qs fq aq).2.2.1 =
        fq - ((recs.filter (recordExpired now)).length : Int) ∧
      (recoverySweep now recs qs fq aq).2.2.2 =
        aq + ((recs.filter (recordExpired now)).length : Int) ∧
      ∀ j, (recoverySweep now recs qs fq aq).2.1 j =
        if (recs.filter (recordExpired now)).any (fun r => r.queue_id == j) then
          resetQueueErrors (qs j)
        else qs j := by
  intro recs
  induction recs with
  | nil =>
    intro qs fq aq
    exact ⟨rfl, by simp [recoverySweep], by simp [recoverySweep],
      fun j => by simp [recoverySweep]⟩
  | cons r rest ih =>
    intro qs fq aq
    by_cases hr : recordExpired now r = true
    · have hfa : List.filter (recordExpired now) (r :: rest) =
          r :: List.filter (recordExpired now) rest := by
        simp [List.filter_cons, hr]
      have hfb : List.filter (fun x => !recordExpired now x) (r :: rest) =
          List.filter (fun x => !recordExpired now x) rest := by
        simp [List.filter_cons, hr]
      simp only [recoverySweep, if_pos hr, hfa, hfb]
      obtain ⟨h1, h2, h3, h4⟩ :=
        ih (fun j => if j = r.queue_id then resetQueueErrors (qs j) else qs j) (fq - 1) (aq + 1)
      refine ⟨h1, ?_, ?_, ?_⟩
      · rw [h2]; simp only [List.length_cons]; push_cast; ring
      · rw [h3]; simp only [List.length_cons]; push_cast; ring
      · intro j
        rw [h4 j, List.any_cons]
        by_cases hj : j = r.queue_id
        · subst hj
          simp only [eq_self_iff_true, if_true, beq_self_eq_true, Bool.true_or]
          by_cases hX : ((List.filter (recordExpired now) rest).any
              (fun r2 => r2.queue_id == r.queue_id)) = true
          · rw [if_pos hX, resetQueueErrors_idem]
          · rw [if_neg hX]
        · have hb : (r.queue_id == j) = false := by
            simp only [beq_eq_false_iff_ne]
            exact fun hh => hj hh.symm
          simp [hj, hb]
    · have hr2 : recordExpired now r = false := by simpa using hr
      have hfa : List.filter (recordExpired now) (r :: rest) =
          List.filter (recordExpired now) rest := by
        simp [List.filter_cons, hr2]
      have hfb : List.filter (fun x => !recordExpired now x) (r :: rest) =
          r :: List.filter (fun x => !recordExpired now x) rest := by
        simp [List.filter_cons, hr2]
      simp only [recoverySweep, hr2, Bool.false_eq_true, if_false, hfa, hfb]
      obtain ⟨h1, h2, h3, h4⟩ := ih qs fq aq
      exact ⟨by simp [h1], h2, h3, fun j => h4 j⟩

/-- Claim C5: a recovery sweep removes exactly the failover records whose
last failure lies more than the 5000 ms window in the past, resets those
queues' rx/tx error counters to zero, decrements the failed-queue count and
increments the active-queue count once per removed record, and leaves
records (and queues) within the window untouched. -/
theorem claim_c5_recovery_sweep (p : virtio_nic_priv) (now : Nat) :
    (virtio_nic_queue_recovery_work p now).failed_list =
      p.failed_list.filter (fun r => !recordExpired now r) ∧
    (virtio_nic_queue_recovery_work p now).failed_queues =
      p.failed_queues - ((p.failed_list.filter (recordExpired now)).length : Int) ∧
    (virtio_nic_queue_recovery_work p now).fo_active_queues =
      p.fo_active_queues + ((p.failed_list.filter (recordExpired now)).length : Int) ∧
    (∀ r ∈ p.failed_list, recordExpired now r = true →
      ((virtio_nic_queue_recovery_work p now).queues r.queue_id).rx_errors = 0 ∧
      ((virtio_nic_queue_recovery_work p now).queues r.queue_id).tx_errors = 0) ∧
    (∀ j, (∀ r ∈ p.failed_list, recordExpired now r = true → r.queue_id ≠ j) →
      (virtio_nic_queue_recovery_work p now).queues j = p.queues j) := by
  obtain ⟨h1, h2, h3, h4⟩ :=
    recoverySweep_spec now p.failed_list p.queues p.failed_queues p.fo_active_queues
  refine ⟨h1, h2, h3, ?_, ?_⟩
  · intro r hr hexp
    have hany : ((p.failed_list.filter (recordExpired now)).any
        (fun r2 => r2.queue_id == r.queue_id)) = true := by
      simp only [List.any_eq_true]
      exact ⟨r, List.mem_filter.mpr ⟨hr, hexp⟩, by simp⟩
    have := h4 r.queue_id
    rw [hany, if_pos rfl] at this
    constructor <;> simp [virtio_nic_queue_recovery_work, this, resetQueueErrors]
  · intro j hj
    have hany : ((p.failed_list.filter (recordExpired now)).any
        (fun r2 => r2.queue_id == j)) = false := by
      simp only [List.any_eq_false]
      intro r2 hr2
      obtain ⟨hmem, hexp⟩ := List.mem_filter.mp hr2
      simpa using hj r2 hmem hexp
    have := h4 j
    rw [hany] at this
    simp only [Bool.false_eq_true, if_false] at this
    simpa [virtio_nic_queue_recovery_work] using this

/-- A successful free-slot scan splits the slot list into a prefix of
non-free slots, the found free slot, and a suffix. -/
theorem findFreeSlot_decomp (l : List virtio_nic_dma_buf) :
    ∀ (j i : Nat), findFreeSlot l j = some i →
      ∃ l₁ b l₂, l = l₁ ++ b :: l₂ ∧ i = j + l₁.length ∧ (b.size == 0) = true ∧
        ∀ b2 ∈ l₁, (b2.size == 0) = false := by
  induction l with
  | nil => intro j i h; simp [findFreeSlot] at h
  | cons b rest ih =>
    intro j i h
    by_cases hb : (b.size == 0) = true
    · rw [findFreeSlot, if_pos hb] at h
      obtain rfl : j = i := by simpa using h
      exact ⟨[], b, rest, rfl, by simp, hb, by simp⟩
    · rw [findFreeSlot, if_neg hb] at h
      obtain ⟨l₁, c, l₂, hl, hi, hc, hall⟩ := ih (j + 1) i h
      refine ⟨b :: l₁, c, l₂, by simp [hl], ?_, hc, ?_⟩
      · subst hi; simp only [List.length_cons]; omega
      · intro b2 hb2
        rcases List.mem_cons.mp hb2 with rfl | hmem
        · simpa using hb
        · exact hall b2 hmem

/-- Setting the element right after a prefix replaces the head of the
suffix. -/
theorem set_append_cons {α : Type} (l₁ : List α) (b x : α) (l₂ : List α) :
    (l₁ ++ b :: l₂).set l₁.length x = l₁ ++ x :: l₂ := by
  induction l₁ with
  | nil => rfl
  | cons a t ih => simp [List.set, ih]

/-- A buffer-pool acquire that fails in page allocation or DMA mapping
returns failure, restores the allocation environment (all pinned pages are
freed again), and leaves the slot's `size` field set to the requested
size. -/
theorem dma_alloc_buffer_fail (env : AllocEnv) (size : Nat) (write : Bool)
    (hfail : env.availPages < DIV_ROUND_UP size PAGE_SIZE ∨ env.mapOk = false) :
    (virtio_nic_dma_alloc_buffer env size write).2.2 = false ∧
    (virtio_nic_dma_alloc_buffer env size write).1 = env ∧
    (virtio_nic_dma_alloc_buffer env size write).2.1.size = size := by
  obtain ⟨avail, mapOk⟩ := env
  dsimp only at hfail
  by_cases hc : DIV_ROUND_UP size PAGE_SIZE ≤ avail
  · rcases hfail with hlt | hmap
    · exact absurd hc (by omega)
    · subst hmap
      refine ⟨?_, ?_, ?_⟩ <;>
        simp [virtio_nic_dma_alloc_buffer, allocPagesLoop, hc, Nat.sub_add_cancel hc]
  · refine ⟨?_, ?_, ?_⟩ <;>
      simp [virtio_nic_dma_alloc_buffer, allocPagesLoop, hc, Nat.sub_self]

/-- Claim C3 (amended): when page allocation or DMA mapping fails part-way,
acquire returns failure, every partially pinned page (and the arrays) is
released — the allocation environment is exactly restored — and the pool's
used count is unchanged; but the scanned slot keeps the requested size in
its `size` field, so it is no longer seen as free: the pool's free-slot
count decreases by one. -/
theorem claim_c3_acquire_rollback (pool : dma_buffer_pool) (env : AllocEnv)
    (size : Nat) (write : Bool) (i : Nat)
    (hfind : findFreeSlot pool.buffers 0 = some i)
    (hpos : 0 < size)
    (hfail : env.availPages < DIV_ROUND_UP size PAGE_SIZE ∨ env.mapOk = false) :
    (virtio_nic_dma_get_buffer pool env size write).2.2 = none ∧
    (virtio_nic_dma_get_buffer pool env size write).2.1 = env ∧
    (virtio_nic_dma_get_buffer pool env size write).1.used = pool.used ∧
    poolFreeSlots (virtio_nic_dma_get_buffer pool env size write).1 + 1 =
      poolFreeSlots pool := by
  obtain ⟨hfalse, henv, hsize⟩ := dma_alloc_buffer_fail env size write hfail
  have hget : virtio_nic_dma_get_buffer pool env size write =
      ({ buffers := pool.buffers.set i (virtio_nic_dma_alloc_buffer env size write).2.1,
         used := pool.used }, (virtio_nic_dma_alloc_buffer env size write).1, none) := by
    simp only [virtio_nic_dma_get_buffer, hfind, hfalse, Bool.false_eq_true, if_false]
  refine ⟨by rw [hget], by rw [hget]; exact henv, by rw [hget], ?_⟩
  obtain ⟨l₁, b, l₂, hl, hi, hb, _⟩ := findFreeSlot_decomp pool.buffers 0 i hfind
  have hi2 : i = l₁.length := by omega
  have hbuf : ((virtio_nic_dma_alloc_buffer env size write).2.1.size == 0) = false := by
    rw [hsize]
    exact beq_eq_false_iff_ne.mpr (Nat.pos_iff_ne_zero.mp hpos)
  rw [hget]
  simp only [poolFreeSlots, hi2, hl, set_append_cons, List.countP_append, List.countP_cons,
    hb, hbuf, if_true, if_false, Bool.false_eq_true, eq_self_iff_true]
  omega

/-- Claim C3 counterexample: a 3-page acquire against a pool with two free
slots and only 2 available pages fails and releases everything, with the
used count unchanged — but the pool's free-slot count is NOT as it was
before the call: the scanned slot is left marked with a nonzero size. -/
theorem claim_c3_counterexample :
    (virtio_nic_dma_get_buffer c3pool c3env (3 * PAGE_SIZE) true).2.2 = none ∧
    (virtio_nic_dma_get_buffer c3pool c3env (3 * PAGE_SIZE) true).2.1 = c3env ∧
    (virtio_nic_dma_get_buffer c3pool c3env (3 * PAGE_SIZE) true).1.used = c3pool.used ∧
    poolFreeSlots (virtio_nic_dma_get_buffer c3pool c3env (3 * PAGE_SIZE) true).1 ≠
      poolFreeSlots c3pool := by decide

/-- Witness for the amended claim C3 at the Scenario D instance: a 3-page
request against 2 available pages. -/
theorem claim_c3_witness :
    findFreeSlot c3pool.buffers 0 = some 0 ∧ 0 < 3 * PAGE_SIZE ∧
    (c3env.availPages < DIV_ROUND_UP (3 * PAGE_SIZE) PAGE_SIZE ∨ c3env.mapOk = false) ∧
    ((virtio_nic_dma_get_buffer c3pool c3env (3 * PAGE_SIZE) true).2.2 = none ∧
      (virtio_nic_dma_get_buffer c3pool c3env (3 * PAGE_SIZE) true).2.1 = c3env ∧
      (virtio_nic_dma_get_buffer c3pool c3env (3 * PAGE_SIZE) true).1.used = c3pool.used ∧
      poolFreeSlots (virtio_nic_dma_get_buffer c3pool c3env (3 * PAGE_SIZE) true).1 + 1 =
        poolFreeSlots c3pool) :=
  ⟨by decide, by decide, by decide,
    claim_c3_acquire_rollback c3pool c3env (3 * PAGE_SIZE) true 0 (by decide) (by decide)
      (by decide)⟩

/-- Effect of a flow migration between two distinct queues: the source table
is emptied, the destination table receives every source entry (owning-queue
field set to the destination) appended in order, and every other queue is
untouched. -/
theorem reassign_hasKey (p : virtio_nic_priv) (a b : Nat) (hab : a ≠ b)
    (p2 : virtio_nic_priv) (h : virtio_nic_reassign_queue_flows p a b = some p2) :
    p2.num_queues = p.num_queues ∧
    (∀ k, queueHasKey (p2.queues a) k = false) ∧
    (∀ k, queueHasKey (p2.queues b) k =
      (queueHasKey (p.queues b) k || queueHasKey (p.queues a) k)) ∧
    (∀ j, j ≠ a → j ≠ b → p2.queues j = p.queues j) ∧
    (p2.queues a).flow_list = [] ∧
    (p2.queues b).flow_list = (p.queues b).flow_list ++
      (p.queues a).flow_list.map (fun f => { f with queue_id := b }) ∧
    p2.failover_count = p.failover_count := by
  rw [virtio_nic_reassign_queue_flows, if_neg hab] at h
  have hba : b ≠ a := Ne.symm hab
  injection h with h2
  subst h2
  refine ⟨rfl, ?_, ?_, ?_, ?_, ?_, rfl⟩
  · intro k; simp [queueHasKey]
  · intro k
    have hcomp : ((fun f : virtio_nic_flow => f.flow_id == k) ∘
        (fun f : virtio_nic_flow => { f with queue_id := b })) =
        (fun f : virtio_nic_flow => f.flow_id == k) := funext fun f => rfl
    simp [queueHasKey, hba, List.any_append, List.any_map, hcomp]
  · intro j hja hjb
    simp [hja, hjb]
  · simp
  · simp [hba]

/-- Claim C1 counterexample: transmit a packet of hash 2 (flow key 2, queue
0), migrate queue 0's flows to queue 1, then transmit the same hash again —
the transmit path still routes it to queue 0 and recreates the entry there,
so flow key 2 is now present in both queues' Flow Tables. -/
theorem claim_c1_counterexample :
    queueHasKey (c1devC.queues 0) 2 = true ∧
    queueHasKey (c1devC.queues 1) 2 = true ∧
    ¬ inExactlyOneTable c1devC 2 := by
  refine ⟨by decide, by decide, ?_⟩
  rintro ⟨i, hi, hk, huniq⟩
  have h0 := huniq 0 (by decide) (by decide)
  have h1 := huniq 1 (by decide) (by decide)
  omega

/-- Claim C1 (amended): migration between two distinct queues itself never
leaves a flow key present in zero or two Flow Tables — a key present in
exactly one table before the migration is present in exactly one table after
it.  (The sequence in the counterexample shows that a subsequent enqueue of
a migrated key on the original queue does recreate the key there, so the
global uniqueness invariant does not hold for arbitrary enqueue/migration
sequences.) -/
theorem claim_c1_migration_preserves_uniqueness (p : virtio_nic_priv) (a b k : Nat)
    (ha : a < p.num_queues) (hb : b < p.num_queues) (hab : a ≠ b)
    (hone : inExactlyOneTable p k) :
    ∃ p2, virtio_nic_reassign_queue_flows p a b = some p2 ∧ inExactlyOneTable p2 k := by
  obtain ⟨i0, hi0, hk0, huniq⟩ := hone
  have hsome : ∃ p2, virtio_nic_reassign_queue_flows p a b = some p2 := by
    rw [virtio_nic_reassign_queue_flows, if_neg hab]; exact ⟨_, rfl⟩
  obtain ⟨p2, hp2⟩ := hsome
  obtain ⟨hn, hKa, hKb, hKo, _, _, _⟩ := reassign_hasKey p a b hab p2 hp2
  refine ⟨p2, hp2, ?_⟩
  by_cases hia : i0 = a
  · refine ⟨b, by rw [hn]; exact hb, ?_, ?_⟩
    · have hk0a : queueHasKey (p.queues a) k = true := by rw [← hia]; exact hk0
      rw [hKb k, hk0a, Bool.or_true]
    · intro j hj hkj
      rw [hn] at hj
      by_cases hja : j = a
      · rw [hja, hKa k] at hkj
        simp at hkj
      · by_cases hjb : j = b
        · exact hjb
        · rw [hKo j hja hjb] at hkj
          have hji := huniq j hj hkj
          rw [hia] at hji
          exact absurd hji hja
  · refine ⟨i0, by rw [hn]; exact hi0, ?_, ?_⟩
    · by_cases hib : i0 = b
      · have hk0b : queueHasKey (p.queues b) k = true := by rw [← hib]; exact hk0
        rw [hib, hKb k, hk0b, Bool.true_or]
      · rw [hKo i0 hia hib]; exact hk0
    · intro j hj hkj
      rw [hn] at hj
      by_cases hja : j = a
      · rw [hja, hKa k] at hkj
        simp at hkj
      · by_cases hjb : j = b
        · rw [hjb, hKb k] at hkj
          simp only [Bool.or_eq_true] at hkj
          rcases hkj with hKbT | hKaT
          · rw [hjb]; exact huniq b hb hKbT
          · exact absurd (huniq a ha hKaT).symm hia
        · rw [hKo j hja hjb] at hkj
          exact huniq j hj hkj

/-- Witness for the amended claim C1: on the two-queue device holding flow
key 2 only in queue 0's table, migrating queue 0 to queue 1 keeps the key in
exactly one table. -/
theorem claim_c1_witness :
    0 < c1devA.num_queues ∧ 1 < c1devA.num_queues ∧ (0 : Nat) ≠ 1 ∧
    inExactlyOneTable c1devA 2 ∧
    (∃ p2, virtio_nic_reassign_queue_flows c1devA 0 1 = some p2 ∧
      inExactlyOneTable p2 2) := by
  have hone : inExactlyOneTable c1devA 2 := by
    refine ⟨0, by decide, by decide, ?_⟩
    intro j hj hk
    have hn : c1devA.num_queues = 2 := by decide
    rw [hn] at hj
    interval_cases j
    · rfl
    · exact absurd hk (by decide)
  exact ⟨by decide, by decide, by decide, hone,
    claim_c1_migration_preserves_uniqueness c1devA 0 1 2 (by decide) (by decide)
      (by decide) hone⟩

/-- What the target-selection loop returns: either the incoming best (and no
scanned queue beat the incoming minimum), or the first scanned index whose
total error count is minimal among the scanned ones and below the incoming
minimum. -/
theorem findAvailAux_spec (p : virtio_nic_priv) :
    ∀ (idxs : List Nat) (best : Int) (minErr : Nat) (t : Nat),
      findAvailAux p idxs best minErr = Int.ofNat t →
      (Int.ofNat t = best ∧ ∀ i ∈ idxs, minErr ≤ errTotal p i) ∨
      (t ∈ idxs ∧ errTotal p t < minErr ∧ ∀ i ∈ idxs, errTotal p t ≤ errTotal p i) := by
  intro idxs
  induction idxs with
  | nil => intro best minErr t h; left; exact ⟨h.symm, by simp⟩
  | cons i rest ih =>
    intro best minErr t h
    by_cases hi : errTotal p i < minErr
    · rw [findAvailAux, if_pos hi] at h
      rcases ih (Int.ofNat i) (errTotal p i) t h with ⟨heq, hall⟩ | ⟨hmem, hlt, hall⟩
      · have hti : t = i := Int.ofNat.inj heq
        right
        refine ⟨by rw [hti]; exact List.mem_cons_self i rest, by rw [hti]; exact hi, ?_⟩
        intro i2 hi2
        rcases List.mem_cons.mp hi2 with rfl | hmem2
        · rw [hti]
        · exact le_trans (by rw [hti]) (hall i2 hmem2)
      · right
        refine ⟨List.mem_cons_of_mem i hmem, lt_trans hlt hi, ?_⟩
        intro i2 hi2
        rcases List.mem_cons.mp hi2 with rfl | hmem2
        · exact le_of_lt hlt
        · exact hall i2 hmem2
    · rw [findAvailAux, if_neg hi] at h
      rcases ih best minErr t h with ⟨heq, hall⟩ | ⟨hmem, hlt, hall⟩
      · left
        refine ⟨heq, ?_⟩
        intro i2 hi2
        rcases List.mem_cons.mp hi2 with rfl | hmem2
        · omega
        · exact hall i2 hmem2
      · right
        refine ⟨List.mem_cons_of_mem i hmem, hlt, ?_⟩
        intro i2 hi2
        rcases List.mem_cons.mp hi2 with rfl | hmem2
        · omega
        · exact hall i2 hmem2

/-- When `virtio_nic_find_available_queue` returns a queue index, that index
is in range and has the globally lowest total error count. -/
theorem find_available_spec (p : virtio_nic_priv) (t : Nat)
    (h : virtio_nic_find_available_queue p = Int.ofNat t) :
    t < p.num_queues ∧ ∀ i, i < p.num_queues → errTotal p t ≤ errTotal p i := by
  rw [virtio_nic_find_available_queue] at h
  rcases findAvailAux_spec p (List.range p.num_queues) (-1) (2 ^ 64 - 1) t h with
    ⟨heq, _⟩ | ⟨hmem, _, hall⟩
  · exact absurd heq (by simp)
  · exact ⟨List.mem_range.mp hmem, fun i hi => hall i (List.mem_range.mpr hi)⟩

/-- The target-selection loop reads only the queue array. -/
theorem findAvailAux_congr (p q : virtio_nic_priv) (hq : p.queues = q.queues) :
    ∀ (idxs : List Nat) (best : Int) (minErr : Nat),
      findAvailAux p idxs best minErr = findAvailAux q idxs best minErr := by
  intro idxs
  have herr : ∀ i, errTotal p i = errTotal q i := by
    intro i; rw [errTotal, errTotal, hq]
  induction idxs with
  | nil => intro best minErr; rfl
  | cons i rest ih =>
    intro best minErr
    rw [findAvailAux, findAvailAux, herr i]
    by_cases hi : errTotal q i < minErr
    · rw [if_pos hi, if_pos hi, ih]
    · rw [if_neg hi, if_neg hi, ih]

/-- Target selection reads only the queue array and the queue count. -/
theorem find_available_congr (p q : virtio_nic_priv) (hq : p.queues = q.queues)
    (hn : p.num_queues = q.num_queues) :
    virtio_nic_find_available_queue p = virtio_nic_find_available_queue q := by
  rw [virtio_nic_find_available_queue, virtio_nic_find_available_queue, hn,
    findAvailAux_congr p q hq]

/-- `virtio_nic_remap_queue` with target `-1` resolves the target through
`virtio_nic_find_available_queue`, migrates the failing queue's flows to it,
and then zeroes the failing queue's error counters. -/
theorem remap_migrates (p' : virtio_nic_priv) (failing t : Nat)
    (hf : failing < p'.num_queues)
    (hfind : virtio_nic_find_available_queue p' = Int.ofNat t)
    (hdist : t ≠ failing) :
    ∃ p2, virtio_nic_remap_queue p' failing (-1) = some p2 ∧
      (p2.queues t).flow_list = (p'.queues t).flow_list ++
        (p'.queues failing).flow_list.map (fun f => { f with queue_id := t }) ∧
      (p2.queues failing).flow_list = [] ∧
      (p2.queues failing).rx_errors = 0 ∧
      (p2.queues failing).tx_errors = 0 ∧
      p2.failover_count = p'.failover_count := by
  have hnt : failing ≠ t := fun h => hdist h.symm
  have hre : ∃ P, virtio_nic_reassign_queue_flows p' failing t = some P := by
    rw [virtio_nic_reassign_queue_flows, if_neg hnt]
    exact ⟨_, rfl⟩
  obtain ⟨P, hP⟩ := hre
  obtain ⟨hn, hKa, hKb, hKo, hLa, hLb, hFc⟩ := reassign_hasKey p' failing t hnt P hP
  have hneg : ¬ ((Int.ofNat t) < 0) := Int.not_lt.mpr (Int.ofNat_nonneg t)
  have hstep : virtio_nic_remap_queue p' failing (-1) =
      some { P with queues := fun j => if j = failing then
          { P.queues failing with rx_errors := 0, tx_errors := 0 } else P.queues j } := by
    have htn : (Int.ofNat t).toNat = t := rfl
    simp only [virtio_nic_remap_queue, if_neg (not_le.mpr hf), if_pos rfl, if_true, hfind,
      if_neg hneg, htn, hP]
    rfl
  refine ⟨_, hstep, ?_, ?_, ?_, ?_, ?_⟩
  · simp only [if_neg hdist]
    exact hLb
  · simp only [if_pos rfl]
    exact hLa
  · simp
  · simp
  · exact hFc

/-- Claim C2 (amended): when a queue is reported failed and the global
failover attempt count is below the maximum, the controller selects as
target the queue with the globally lowest total error count — which is not
guaranteed to be distinct from the failing queue.  Whenever the selected
target is distinct, every flow entry of the failing queue's table is moved
to the target's table with its owning-queue field set to the target's index,
the failing queue's error counters are reset to zero, and the failover
attempt count is incremented. -/
theorem claim_c2_failover_migration (p : virtio_nic_priv) (failing now : Nat)
    (allocOk : Bool) (t : Nat)
    (hf : failing < p.num_queues)
    (hcnt : p.failover_count < p.max_failover_count)
    (hfind : virtio_nic_find_available_queue p = Int.ofNat t)
    (hdist : t ≠ failing) :
    ∃ p2, virtio_nic_queue_failed p failing now allocOk = some p2 ∧
      t < p.num_queues ∧
      (∀ i, i < p.num_queues → errTotal p t ≤ errTotal p i) ∧
      (p2.queues t).flow_list =
        (p.queues t).flow_list ++
          (p.queues failing).flow_list.map (fun f => { f with queue_id := t }) ∧
      (p2.queues failing).flow_list = [] ∧
      (p2.queues failing).rx_errors = 0 ∧ (p2.queues failing).tx_errors = 0 ∧
      p2.failover_count = p.failover_count + 1 := by
  obtain ⟨htlt, hmin⟩ := find_available_spec p t hfind
  simp only [virtio_nic_queue_failed, if_neg (not_le.mpr hf)]
  cases hbump : bumpFailedRecord failing now p.failed_list with
  | some recs =>
    simp only [hbump]
    rw [if_pos hcnt]
    obtain ⟨p2, hmap, h1, h2, h3, h4, h5⟩ :=
      remap_migrates { p with failed_list := recs, failover_count := p.failover_count + 1 }
        failing t hf
        ((find_available_congr
          { p with failed_list := recs, failover_count := p.failover_count + 1 } p rfl rfl).trans
          hfind) hdist
    exact ⟨p2, hmap, htlt, hmin, h1, h2, h3, h4, h5⟩
  | none =>
    simp only [hbump]
    by_cases hao : allocOk = true
    · rw [if_pos hao, if_pos hcnt]
      obtain ⟨p2, hmap, h1, h2, h3, h4, h5⟩ :=
        remap_migrates
          { p with
              failed_list := p.failed_list ++
                [{ queue_id := failing, failure_count := 1, last_failure := now,
                   recovery_time := 0 }]
              failed_queues := p.failed_queues + 1
              fo_active_queues := p.fo_active_queues - 1
              failover_count := p.failover_count + 1 }
          failing t hf
          ((find_available_congr
            { p with
                failed_list := p.failed_list ++
                  [{ queue_id := failing, failure_count := 1, last_failure := now,
                     recovery_time := 0 }]
                failed_queues := p.failed_queues + 1
                fo_active_queues := p.fo_active_queues - 1
                failover_count := p.failover_count + 1 } p rfl rfl).trans hfind) hdist
      exact ⟨p2, hmap, htlt, hmin, h1, h2, h3, h4, h5⟩
    · rw [if_neg hao, if_pos hcnt]
      obtain ⟨p2, hmap, h1, h2, h3, h4, h5⟩ :=
        remap_migrates { p with failover_count := p.failover_count + 1 } failing t hf
          ((find_available_congr { p with failover_count := p.failover_count + 1 } p
            rfl rfl).trans hfind) hdist
      exact ⟨p2, hmap, htlt, hmin, h1, h2, h3, h4, h5⟩

/-- Claim C2 counterexample: queue 0 exceeds the failure threshold
(1001 > 1000) and failover is permitted (0 < 3), yet the selected migration
target is queue 0 itself — the queue with the globally lowest total error
count is the failing queue, which is not distinct from it (and the C code
would then self-deadlock migrating a queue onto itself, modelled as
`none`). -/
theorem claim_c2_counterexample :
    c2dev.queue_failure_threshold < (c2dev.queues 0).rx_errors ∧
    c2dev.failover_count < c2dev.max_failover_count ∧
    virtio_nic_find_available_queue c2dev = Int.ofNat 0 ∧
    (virtio_nic_queue_failed c2dev 0 0 true).isNone = true := by decide

/-- Witness for the amended claim C2: on the two-queue device where queue 0
is failing and queue 1 is healthy, the failure handler migrates queue 0's
flow to queue 1 and resets queue 0's error counters. -/
theorem claim_c2_witness :
    0 < c2devW.num_queues ∧
    c2devW.failover_count < c2devW.max_failover_count ∧
    virtio_nic_find_available_queue c2devW = Int.ofNat 1 ∧
    (1 : Nat) ≠ 0 ∧
    (∃ p2, virtio_nic_queue_failed c2devW 0 5 true = some p2 ∧
      1 < c2devW.num_queues ∧
      (∀ i, i < c2devW.num_queues → errTotal c2devW 1 ≤ errTotal c2devW i) ∧
      (p2.queues 1).flow_list =
        (c2devW.queues 1).flow_list ++
          (c2devW.queues 0).flow_list.map (fun f => { f with queue_id := 1 }) ∧
      (p2.queues 0).flow_list = [] ∧
      (p2.queues 0).rx_errors = 0 ∧ (p2.queues 0).tx_errors = 0 ∧
      p2.failover_count = c2devW.failover_count + 1) :=
  ⟨by decide, by decide, by decide, by decide,
    claim_c2_failover_migration c2devW 0 5 true 1 (by decide) (by decide) (by decide)
      (by decide)⟩

/-- Unfolding of an `Option`-valued `foldlM` one step. -/
theorem optionFoldlM_cons {σ α : Type} (f : σ → α → Option σ) (b : σ) (a : α)
    (l : List α) :
    List.foldlM f b (a :: l) = (f b a).bind (fun b2 => List.foldlM f b2 l) := by
  rw [List.foldlM_cons]; rfl

/-- Once the failover attempt count has reached the maximum, a failure
report updates only the failover records — the queue array (and with it
every Flow Table), the counts and the configuration are untouched. -/
theorem queue_failed_saturated (p : virtio_nic_priv) (qid now : Nat) (allocOk : Bool)
    (h : p.max_failover_count ≤ p.failover_count) :
    ∃ p2, virtio_nic_queue_failed p qid now allocOk = some p2 ∧
      p2.queues = p.queues ∧ p2.num_queues = p.num_queues ∧
      p2.failover_count = p.failover_count ∧
      p2.max_failover_count = p.max_failover_count ∧
      p2.queue_failure_threshold = p.queue_failure_threshold := by
  by_cases hq : p.num_queues ≤ qid
  · exact ⟨p, by simp [virtio_nic_queue_failed, hq], rfl, rfl, rfl, rfl, rfl⟩
  · simp only [virtio_nic_queue_failed, if_neg hq]
    cases hbump : bumpFailedRecord qid now p.failed_list with
    | some recs =>
      simp only [hbump]
      rw [if_neg (not_lt.mpr h)]
      exact ⟨_, rfl, rfl, rfl, rfl, rfl, rfl⟩
    | none =>
      simp only [hbump]
      by_cases hao : allocOk = true
      · rw [if_pos hao, if_neg (not_lt.mpr h)]
        exact ⟨_, rfl, rfl, rfl, rfl, rfl, rfl⟩
      · rw [if_neg hao, if_neg (not_lt.mpr h)]
        exact ⟨_, rfl, rfl, rfl, rfl, rfl, rfl⟩

/-- A full health-check tick at saturated failover count leaves the queue
array untouched. -/
theorem health_check_saturated (p : virtio_nic_priv) (now : Nat) (allocOk : Bool)
    (h : p.max_failover_count ≤ p.failover_count) :
    ∃ p2, virtio_nic_health_check_timer p now allocOk = some p2 ∧
      p2.queues = p.queues ∧ p2.num_queues = p.num_queues ∧
      p2.failover_count = p.failover_count ∧
      p2.max_failover_count = p.max_failover_count ∧
      p2.queue_failure_threshold = p.queue_failure_threshold := by
  have main : ∀ (l : List Nat) (acc : virtio_nic_priv),
      acc.max_failover_count ≤ acc.failover_count →
      ∃ p2, List.foldlM (fun acc2 i =>
          if acc2.queue_failure_threshold < (acc2.queues i).rx_errors ∨
             acc2.queue_failure_threshold < (acc2.queues i).tx_errors then
            virtio_nic_queue_failed acc2 i now allocOk
          else pure acc2) acc l = some p2 ∧
        p2.queues = acc.queues ∧ p2.num_queues = acc.num_queues ∧
        p2.failover_count = acc.failover_count ∧
        p2.max_failover_count = acc.max_failover_count ∧
        p2.queue_failure_threshold = acc.queue_failure_threshold := by
    intro l
    induction l with
    | nil => intro acc hacc; exact ⟨acc, rfl, rfl, rfl, rfl, rfl, rfl⟩
    | cons i rest ih =>
      intro acc hacc
      rw [optionFoldlM_cons]
      by_cases hcond : acc.queue_failure_threshold < (acc.queues i).rx_errors ∨
          acc.queue_failure_threshold < (acc.queues i).tx_errors
      · rw [if_pos hcond]
        obtain ⟨a1, ha1, hq1, hn1, hc1, hm1, ht1⟩ :=
          queue_failed_saturated acc i now allocOk hacc
        obtain ⟨p2, hp2, hq2, hn2, hc2, hm2, ht2⟩ := ih a1 (by rw [hc1, hm1]; exact hacc)
        refine ⟨p2, ?_, hq2.trans hq1, hn2.trans hn1, hc2.trans hc1, hm2.trans hm1,
          ht2.trans ht1⟩
        rw [ha1, Option.some_bind]
        exact hp2
      · rw [if_neg hcond]
        obtain ⟨p2, hp2, hq2, hn2, hc2, hm2, ht2⟩ := ih acc hacc
        exact ⟨p2, hp2, hq2, hn2, hc2, hm2, ht2⟩
  obtain ⟨p2, hp2, hq2, hn2, hc2, hm2, ht2⟩ := main (List.range p.num_queues) p h
  exact ⟨p2, hp2, hq2, hn2, hc2, hm2, ht2⟩

/-- Claim C7: once the global failover attempt count has reached the
configured maximum, no sequence of health-check ticks triggers another flow
migration — the entire queue array, and with it every queue's Flow Table, is
left unchanged, and the count stays saturated. -/
theorem claim_c7_no_migration_after_max (p : virtio_nic_priv)
    (checks : List (Nat × Bool)) (h : p.max_failover_count ≤ p.failover_count) :
    ∃ p2, runHealthChecks p checks = some p2 ∧ p2.queues = p.queues ∧
      p2.max_failover_count ≤ p2.failover_count := by
  induction checks generalizing p with
  | nil => exact ⟨p, rfl, rfl, h⟩
  | cons c rest ih =>
    obtain ⟨a1, ha1, hq1, hn1, hc1, hm1, ht1⟩ := health_check_saturated p c.1 c.2 h
    obtain ⟨p2, hp2, hq2, hle⟩ := ih a1 (by rw [hc1, hm1]; exact h)
    refine ⟨p2, ?_, hq2.trans hq1, hle⟩
    rw [runHealthChecks, optionFoldlM_cons, ha1, Option.some_bind]
    exact hp2

/-- Witness for claim C7: a device whose failover count already equals the
maximum (3), with every queue far beyond the error threshold, over two
health-check ticks. -/
theorem claim_c7_witness :
    c7dev.max_failover_count ≤ c7dev.failover_count ∧
    (∃ p2, runHealthChecks c7dev [(0, true), (1000, false)] = some p2 ∧
      p2.queues = c7dev.queues ∧ p2.max_failover_count ≤ p2.failover_count) :=
  ⟨by decide, claim_c7_no_migration_after_max c7dev [(0, true), (1000, false)] (by decide)⟩

/-- A migration that moves at least one flow acquires the destination
table's lock while holding the source table's lock. -/
theorem reassign_lock_nesting (a b n : Nat) (hn : 0 < n) :
    (a, b) ∈ lockPairs (reassignLockTrace a b n) := by
  cases n with
  | zero => exact absurd hn (by omega)
  | succ m =>
    simp [lockPairs, reassignLockTrace, nestedPairs, List.replicate_succ]

/-- Claim C9 counterexample: the migration (0 → 1) acquires lock 1 while
holding lock 0, and the reverse migration (1 → 0) acquires lock 0 while
holding lock 1 — so no fixed global (irreflexive, transitive) lock order is
respected by all migrations, contradicting the claimed deadlock-freedom
discipline. -/
theorem claim_c9_counterexample :
    ((0, 1) ∈ lockPairs (reassignLockTrace 0 1 1)) ∧
    ((1, 0) ∈ lockPairs (reassignLockTrace 1 0 1)) ∧
    ¬ ∃ r : Nat → Nat → Prop,
        (∀ x, ¬ r x x) ∧ (∀ x y z, r x y → r y z → r x z) ∧
        (∀ a b n x y, (x, y) ∈ lockPairs (reassignLockTrace a b n) → r x y) := by
  refine ⟨by decide, by decide, ?_⟩
  rintro ⟨r, hirr, htrans, hall⟩
  have h01 : r 0 1 := hall 0 1 1 0 1 (by decide)
  have h10 : r 1 0 := hall 1 0 1 1 0 (by decide)
  exact hirr 0 (htrans 0 1 0 h01 h10)

/-- Claim C9 (amended): flow migration between two distinct queues never
loses a flow entry — the source table is emptied, every entry reappears in
the destination table with its owning-queue field updated, all other tables
are untouched, and a key ends up in the destination iff it was in the source
or destination.  The locking discipline is source-then-destination nested
acquisition — the destination lock is taken while the source lock is held,
in migration direction order, not in a fixed global lock order. -/
theorem claim_c9_migration_lock_order (p : virtio_nic_priv) (a b k : Nat)
    (hab : a ≠ b) :
    ∃ p2, virtio_nic_reassign_queue_flows p a b = some p2 ∧
      (p2.queues a).flow_list = [] ∧
      (p2.queues b).flow_list =
        (p.queues b).flow_list ++
          (p.queues a).flow_list.map (fun f => { f with queue_id := b }) ∧
      (∀ j, j ≠ a → j ≠ b → p2.queues j = p.queues j) ∧
      queueHasKey (p2.queues b) k =
        (queueHasKey (p.queues b) k || queueHasKey (p.queues a) k) ∧
      (0 < (p.queues a).flow_list.length →
        (a, b) ∈ lockPairs (reassignLockTrace a b (p.queues a).flow_list.length)) := by
  have hsome : ∃ p2, virtio_nic_reassign_queue_flows p a b = some p2 := by
    rw [virtio_nic_reassign_queue_flows, if_neg hab]
    exact ⟨_, rfl⟩
  obtain ⟨p2, hp2⟩ := hsome
  obtain ⟨hn, hKa, hKb, hKo, hLa, hLb, hFc⟩ := reassign_hasKey p a b hab p2 hp2
  exact ⟨p2, hp2, hLa, hLb, hKo, hKb k, fun hpos => reassign_lock_nesting a b _ hpos⟩

/-- Witness for the amended claim C9: migrating queue 0 (holding one flow)
to queue 1 on the two-queue device. -/
theorem claim_c9_witness :
    (0 : Nat) ≠ 1 ∧
    (∃ p2, virtio_nic_reassign_queue_flows c1devA 0 1 = some p2 ∧
      (p2.queues 0).flow_list = [] ∧
      (p2.queues 1).flow_list =
        (c1devA.queues 1).flow_list ++
          (c1devA.queues 0).flow_list.map (fun f => { f with queue_id := 1 }) ∧
      (∀ j, j ≠ 0 → j ≠ 1 → p2.queues j = c1devA.queues j) ∧
      queueHasKey (p2.queues 1) 2 =
        (queueHasKey (c1devA.queues 1) 2 || queueHasKey (c1devA.queues 0) 2) ∧
      (0 < (c1devA.queues 0).flow_list.length →
        (0, 1) ∈ lockPairs (reassignLockTrace 0 1 (c1devA.queues 0).flow_list.length))) :=
  ⟨by decide, claim_c9_migration_lock_order c1devA 0 1 2 (by decide)⟩

/-- Flow-table membership after a find-or-create update with a successful
allocation: the updated list has a key iff the old list had it or it is the
updated flow id. -/
theorem updateFlowList_hasKey (fid bytes now qtag k : Nat) (l : List virtio_nic_flow) :
    ((updateFlowList fid bytes now qtag true l).any (fun f => f.flow_id == k)) =
      (l.any (fun f => f.flow_id == k) || (fid == k)) := by
  induction l with
  | nil => simp [updateFlowList]
  | cons f rest ih =>
    by_cases hf : (f.flow_id == fid) = true
    · rw [updateFlowList, if_pos hf]
      simp only [List.any_cons]
      have hfe : f.flow_id = fid := by simpa using hf
      rw [hfe]
      cases fid == k <;> cases rest.any (fun f => f.flow_id == k) <;> simp
    · rw [updateFlowList, if_neg hf]
      simp only [List.any_cons, ih, Bool.or_assoc]

/-- Flow-table membership ignores the tx statistics fields. -/
theorem queueHasKey_tx_update (q : virtio_nic_queue) (a b k : Nat) :
    queueHasKey { q with tx_packets := a, tx_bytes := b } k = queueHasKey q k := rfl

/-- A submission against a ring with a free descriptor succeeds, keeps the
capacity, grows the ring by one, and adds exactly the packet's flow key to
the table. -/
theorem enqueue_success (q : virtio_nic_queue) (hash len now data : Nat)
    (hr : q.ring.length < q.ringCapacity) :
    (virtio_nic_enqueue q hash len now data true).2 = true ∧
    (virtio_nic_enqueue q hash len now data true).1.ringCapacity = q.ringCapacity ∧
    (virtio_nic_enqueue q hash len now data true).1.ring.length = q.ring.length + 1 ∧
    ∀ k, queueHasKey (virtio_nic_enqueue q hash len now data true).1 k =
      (queueHasKey q k || ((hash % 0xFFFF) == k)) := by
  refine ⟨?_, ?_, ?_, ?_⟩
  · simp [virtio_nic_enqueue, if_pos hr]
  · simp [virtio_nic_enqueue, if_pos hr, virtio_nic_update_flow_stats]
  · simp [virtio_nic_enqueue, if_pos hr, virtio_nic_update_flow_stats]
  · intro k
    simp [virtio_nic_enqueue, if_pos hr, virtio_nic_update_flow_stats, queueHasKey,
      updateFlowList_hasKey]

/-- Appending one packet to the Scenario A expectation. -/
theorem c8Spec_append (done : List (Nat × Nat)) (x : Nat × Nat) (i k : Nat) :
    c8Spec (done ++ [x]) i k =
      (c8Spec done i k || ((x.1 % 4 == i) && (x.1 % 0xFFFF == k))) := by
  simp [c8Spec, List.any_append]

/-- One successful transmission preserves the Scenario A invariant. -/
theorem c8_step (done : List (Nat × Nat)) (p : virtio_nic_priv) (x : Nat × Nat)
    (hinv : C8Inv done p) (hlt : done.length < 1000) :
    C8Inv (done ++ [x]) (virtio_nic_start_xmit p x.1 x.2 0 0 true).1 := by
  obtain ⟨hnq, hac, htx, hcap, hring, hkey⟩ := hinv
  have hq4 : (if x.1 ≠ 0 then x.1 % p.num_queues else 0) % p.active_queues = x.1 % 4 := by
    rw [hnq, hac]
    by_cases h0 : x.1 = 0
    · simp [h0]
    · rw [if_pos h0]
      exact Nat.mod_mod_of_dvd x.1 (dvd_refl 4)
  have hrlt : (p.queues (x.1 % 4)).ring.length < (p.queues (x.1 % 4)).ringCapacity := by
    rw [hcap]
    exact lt_of_le_of_lt (hring (x.1 % 4)) hlt
  obtain ⟨hok, hcap2, hlen2, hkey2⟩ := enqueue_success (p.queues (x.1 % 4)) x.1 x.2 0 0 hrlt
  simp only [virtio_nic_start_xmit, hq4, hok, if_true]
  refine ⟨hnq, hac, ?_, ?_, ?_, ?_⟩
  · show p.total_tx_packets + 1 = (done ++ [x]).length
    rw [htx]
    simp
  · intro i
    by_cases hi : i = x.1 % 4
    · subst hi
      simp only [eq_self_iff_true, if_true]
      show ((virtio_nic_enqueue (p.queues (x.1 % 4)) x.1 x.2 0 0 true).1).ringCapacity = 1000
      rw [hcap2]
      exact hcap (x.1 % 4)
    · simp only [if_neg hi]
      exact hcap i
  · intro i
    by_cases hi : i = x.1 % 4
    · subst hi
      simp only [eq_self_iff_true, if_true]
      show ((virtio_nic_enqueue (p.queues (x.1 % 4)) x.1 x.2 0 0 true).1).ring.length ≤
        (done ++ [x]).length
      rw [hlen2]
      have := hring (x.1 % 4)
      simp only [List.length_append, List.length_cons, List.length_nil]
      omega
    · simp only [if_neg hi, List.length_append, List.length_cons, List.length_nil]
      have := hring i
      omega
  · intro i k
    by_cases hi : i = x.1 % 4
    · subst hi
      simp only [eq_self_iff_true, if_true]
      rw [show queueHasKey
          { (virtio_nic_enqueue (p.queues (x.1 % 4)) x.1 x.2 0 0 true).1 with
              tx_packets :=
                ((virtio_nic_enqueue (p.queues (x.1 % 4)) x.1 x.2 0 0 true).1).tx_packets + 1
              tx_bytes :=
                ((virtio_nic_enqueue (p.queues (x.1 % 4)) x.1 x.2 0 0 true).1).tx_bytes + x.2 }
          k = queueHasKey (virtio_nic_enqueue (p.queues (x.1 % 4)) x.1 x.2 0 0 true).1 k
        from rfl]
      rw [hkey2 k, hkey (x.1 % 4) k, c8Spec_append]
      simp
    · simp only [if_neg hi]
      rw [hkey i k, c8Spec_append]
      have hne : (x.1 % 4 == i) = false :=
        beq_eq_false_iff_ne.mpr fun hh => hi hh.symm
      rw [hne]
      simp

/-- The Scenario A invariant holds at a freshly probed 4-queue device with
ring capacity 1000. -/
theorem c8_init : C8Inv [] (initPriv 4 1000) := by
  refine ⟨rfl, rfl, rfl, fun i => rfl,
    fun i => by simp [initPriv, virtio_nic_setup_queues, virtio_nic_init_failover, initQueue], ?_⟩
  intro i k
  simp [queueHasKey, c8Spec, initPriv, virtio_nic_setup_queues, virtio_nic_init_failover,
    initQueue]

/-- Running the remaining transmissions preserves the Scenario A invariant
as long as the total stays within the ring capacity. -/
theorem c8_run :
    ∀ (rest done : List (Nat × Nat)) (p : virtio_nic_priv),
      C8Inv done p → done.length + rest.length ≤ 1000 →
      C8Inv (done ++ rest) (runXmits p rest) := by
  intro rest
  induction rest with
  | nil =>
    intro done p h hlen
    simpa [runXmits] using h
  | cons x rs ih =>
    intro done p h hlen
    have hstep := c8_step done p x h (by simp only [List.length_cons] at hlen; omega)
    have hrun := ih (done ++ [x]) _ hstep
      (by simp only [List.length_append, List.length_cons, List.length_nil] at hlen ⊢; omega)
    rw [runXmits] at hrun ⊢
    simp only [List.foldl_cons]
    rw [show (done ++ [x]) ++ rs = done ++ (x :: rs) by simp] at hrun
    exact hrun

/-- Claim C8: transmitting any 1,000 packets on a fresh 4-active-queue
device (ring capacity 1000, flow hashing mod 4, allocations succeeding)
leaves the aggregate tx packet counter at 1,000, and each queue's Flow Table
contains exactly the flow keys of the packets whose hash mod 4 equals that
queue's index. -/
theorem claim_c8_scenario_a (pkts : List (Nat × Nat)) (hlen : pkts.length = 1000) :
    (runXmits (initPriv 4 1000) pkts).total_tx_packets = 1000 ∧
    ∀ i k, queueHasKey ((runXmits (initPriv 4 1000) pkts).queues i) k =
      c8Spec pkts i k := by
  have h := c8_run pkts [] (initPriv 4 1000) c8_init (by simp [hlen])
  rw [List.nil_append] at h
  obtain ⟨_, _, htx, _, _, hkey⟩ := h
  exact ⟨by rw [htx, hlen], fun i k => hkey i k⟩

/-- Witness for claim C8 at the packet list of hashes 0..999 (length 1 each). -/
theorem claim_c8_witness :
    ((List.range 1000).map (fun h => (h, 1))).length = 1000 ∧
    ((runXmits (initPriv 4 1000) ((List.range 1000).map (fun h => (h, 1)))).total_tx_packets
        = 1000 ∧
      ∀ i k, queueHasKey
          ((runXmits (initPriv 4 1000) ((List.range 1000).map (fun h => (h, 1)))).queues i) k =
        c8Spec ((List.range 1000).map (fun h => (h, 1))) i k) :=
  ⟨by simp, claim_c8_scenario_a _ (by simp)⟩

end VirtioNic
